import Mathlib

/-
Formal model of the email → board-item ingestion backend in `server.js`:
field extraction (`extractPatientName`, `extractValue`), the sender policy
and dedup ledger of the IMAP polling loop (`startEmailListener`), per-board
column resolution (`ensureColumns`), item creation (`createItem`) and the
`/config/sender` administrative endpoint.  JavaScript strings are modelled
as Lean strings (lists of characters); the regular-expression semantics of
`String.prototype.match` is embedded explicitly for the one pattern shape
the source uses.
-/

/-- Whitespace characters matched by the JavaScript regex class `\s` (and
trimmed by `String.prototype.trim`): tab, line feed, vertical tab, form
feed, carriage return, space, no-break space, ogham space mark, the en/em
spaces U+2000–U+200A, line separator, paragraph separator, narrow no-break
space, medium mathematical space, ideographic space and the BOM. -/
def jsWhitespaceChar (c : Char) : Bool :=
  c.toNat = 9 || c.toNat = 10 || c.toNat = 11 || c.toNat = 12 || c.toNat = 13 ||
  c.toNat = 32 || c.toNat = 160 || c.toNat = 5760 ||
  (8192 ≤ c.toNat && c.toNat ≤ 8202) ||
  c.toNat = 8232 || c.toNat = 8233 || c.toNat = 8239 || c.toNat = 8287 ||
  c.toNat = 12288 || c.toNat = 65279

/-- Line-terminator characters: the JavaScript regex `.` (without the `s`
flag) matches every character except these. -/
def jsLineTerminatorChar (c : Char) : Bool :=
  c.toNat = 10 || c.toNat = 13 || c.toNat = 8232 || c.toNat = 8233

/-- Trim of a character list: drop leading and trailing JavaScript
whitespace, as `String.prototype.trim` does (`l => l.trim()` in
`extractPatientName`). -/
def jsTrimL (l : List Char) : List Char :=
  ((l.dropWhile jsWhitespaceChar).reverse.dropWhile jsWhitespaceChar).reverse

/-- Trim of a string, i.e. JavaScript `s.trim()`. -/
def jsTrim (s : String) : String := ⟨jsTrimL s.data⟩

/-- JavaScript `text.split("\n")`: split a character list at every line
feed; the separator is a single character, so occurrences cannot overlap. -/
def splitOnNl : List Char → List (List Char)
  | [] => [[]]
  | c :: rest =>
    if c = '\n' then [] :: splitOnNl rest
    else
      match splitOnNl rest with
      | [] => [[c]]
      | l :: ls => (c :: l) :: ls

/-- Embedding of `extractPatientName` from `server.js`:
`text.split("\n").map(l => l.trim()).filter(Boolean)[0]`.  The result is
`none` exactly when indexing past the filtered array yields `undefined`. -/
def extractPatientName (text : String) : Option String :=
  ((((splitOnNl text.data).map jsTrimL).filter (fun l => !l.isEmpty)).head?).map
    (fun l => (⟨l⟩ : String))

/-- Case-insensitive match of the literal label followed by a colon at the
head of the input, returning the input after the colon; this is the
`${label}:` part of the regex `` new RegExp(`${label}:\\s*(.+)`, "i") ``
for labels without regex metacharacters (the four labels the source uses
are plain words).  Characters are canonicalized ASCII-style, as the
non-Unicode `i` flag does. -/
def ciLabelMatch : List Char → List Char → Option (List Char)
  | [], ':' :: rest => some rest
  | [], _ => none
  | _ :: _, [] => none
  | l :: ls, c :: cs => if l.toLower = c.toLower then ciLabelMatch ls cs else none

/-- One attempt of the `(.+)` part after `\s*` has consumed `k`
characters: succeeds when a non-line-terminator character is present,
capturing greedily to the end of the line. -/
def dotPlusAt (rest : List Char) (k : Nat) : Option (List Char) :=
  match rest.drop k with
  | [] => none
  | c :: cs =>
    if jsLineTerminatorChar c then none
    else some ((c :: cs).takeWhile (fun x => !jsLineTerminatorChar x))

/-- Backtracking of the greedy `\s*`: try `k, k-1, …, 0` consumed
whitespace characters and return the first capture of `(.+)` that
succeeds. -/
def dotPlusBacktrack (rest : List Char) : Nat → Option (List Char)
  | 0 => dotPlusAt rest 0
  | k + 1 =>
    match dotPlusAt rest (k + 1) with
    | some cap => some cap
    | none => dotPlusBacktrack rest k

/-- Match of `\s*(.+)` at the start of `rest`: the greedy `\s*` first
consumes the maximal whitespace prefix, then backtracks until `(.+)` can
match at least one character. -/
def matchTail (rest : List Char) : Option (List Char) :=
  dotPlusBacktrack rest (rest.takeWhile jsWhitespaceChar).length

/-- Leftmost-match search of `` `${label}:\s*(.+)` `` over the whole text:
at each successive start position, try the label and then the tail; on
failure resume at the next character, as the JavaScript engine does. -/
def scanMatch (label : List Char) : List Char → Option (List Char)
  | [] => none
  | c :: cs =>
    match ciLabelMatch label (c :: cs) with
    | some rest =>
      match matchTail rest with
      | some cap => some cap
      | none => scanMatch label cs
    | none => scanMatch label cs

/-- Whether the label (followed by a colon) occurs case-insensitively at
some position of the text, matchable or not. -/
def labelOccurs (label : List Char) : List Char → Bool
  | [] => (ciLabelMatch label []).isSome
  | c :: cs => (ciLabelMatch label (c :: cs)).isSome || labelOccurs label cs

/-- Embedding of `extractValue` from `server.js`:
`text.match(new RegExp(`${label}:\\s*(.+)`, "i"))`, returning the first
capture group trimmed, or `null` when the regex does not match. -/
def extractValue (label text : String) : Option String :=
  (scanMatch label.data text.data).map (fun cap => (⟨jsTrimL cap⟩ : String))

/-- Modelled from the spec (§4.1): whether a single line is of the form
`<Label>: <value>`, i.e. the line starts, case-insensitively, with the
label followed by a colon.  This is the spec-side reading used to state
the claims about `extractValue`; the source itself never tests a line
shape. -/
def specLabeledLine (label line : String) : Bool :=
  (ciLabelMatch label.data line.data).isSome

/-- One column of a Monday board, as returned by the `boards { columns }`
query used in `ensureColumns`: an identifier and a title. -/
structure MondayColumn where
  id : String
  title : String
deriving DecidableEq

/-- The external board state visible to `ensureColumns`: its columns in
order, plus a counter from which the store mints fresh column ids. -/
structure MondayBoard where
  cols : List MondayColumn
  nextId : Nat
deriving DecidableEq

/-- The `create_column` mutation: the store appends a column with the
requested title and a fresh id, and returns that id. -/
def createColumn (b : MondayBoard) (title : String) : String × MondayBoard :=
  let newId := "col" ++ toString b.nextId
  (newId, ⟨b.cols ++ [⟨newId, title⟩], b.nextId + 1⟩)

/-- The per-board mapping from the four logical field keys to destination
column ids (`boardStore[boardId].columns` in the source). -/
structure ColumnMap where
  email : String
  phone : String
  service : String
  note : String
deriving DecidableEq

/-- One iteration of the loop in `ensureColumns`: look the title up in the
snapshot of the board columns fetched before the loop
(`boardColumns.find(c => c.title === required[key].title)`); reuse the id
when found, otherwise create the column. -/
def lookupOrCreate (snapshot : List MondayColumn) (title : String) (b : MondayBoard) :
    String × MondayBoard :=
  match snapshot.find? (fun c => c.title = title) with
  | some c => (c.id, b)
  | none => createColumn b title

/-- Embedding of `ensureColumns` from `server.js`: fetch the columns once,
then for the keys `email`, `phone`, `service`, `note` in that order, find
by title or create, and collect the resulting map. -/
def ensureColumns (b0 : MondayBoard) : ColumnMap × MondayBoard :=
  let snapshot := b0.cols
  let r1 := lookupOrCreate snapshot "Email Address" b0
  let r2 := lookupOrCreate snapshot "Phone Number" r1.2
  let r3 := lookupOrCreate snapshot "Service" r2.2
  let r4 := lookupOrCreate snapshot "Special Note" r3.2
  (⟨r1.1, r2.1, r3.1, r4.1⟩, r4.2)

/-- Column value objects as `createItem` builds them: an email object, a
phone object with the fixed `"IN"` country, a status label, or a raw
long-text string. -/
inductive ColumnValue where
  | emailV (email text : String)
  | phoneV (phone countryShortName : String)
  | statusV (label : String)
  | longTextV (value : String)
deriving DecidableEq

/-- The structured payload of the `create_item` mutation: the item name
and the `values` object, modelled as an association list in insertion
order. -/
structure ItemPayload where
  itemName : String
  columnValues : List (String × ColumnValue)
deriving DecidableEq

/-- One conditional insertion `if (x) values[col] = f(x)` from
`createItem`: a `null` extraction result and the empty string are both
falsy in JavaScript, so both are omitted. -/
def entryIf (k : String) (f : String → ColumnValue) : Option String → List (String × ColumnValue)
  | none => []
  | some s => if s = "" then [] else [(k, f s)]

/-- Embedding of the payload construction in `createItem` from
`server.js`: conditionally insert email, phone, service and note values,
in that order, keyed by the board's column ids. -/
def createItemPayload (cols : ColumnMap) (name : String)
    (email phone service note : Option String) : ItemPayload where
  itemName := name
  columnValues :=
    entryIf cols.email (fun e => .emailV e e) email ++
    entryIf cols.phone (fun p => .phoneV p "IN") phone ++
    entryIf cols.service (fun s => .statusV s) service ++
    entryIf cols.note (fun n => .longTextV n) note

/-- Hexadecimal digit character used by `JSON.stringify` for control
characters. -/
def hexDigitChar (n : Nat) : Char :=
  if n < 10 then Char.ofNat (48 + n) else Char.ofNat (87 + n)

/-- Escape of one character inside a `JSON.stringify` string literal. -/
def jsonEscapeChar (c : Char) : List Char :=
  if c = '"' then ['\\', '"']
  else if c = '\\' then ['\\', '\\']
  else if c = '\x08' then ['\\', 'b']
  else if c = '\x09' then ['\\', 't']
  else if c = '\x0a' then ['\\', 'n']
  else if c = '\x0c' then ['\\', 'f']
  else if c = '\x0d' then ['\\', 'r']
  else if c.toNat < 32 then
    ['\\', 'u', hexDigitChar (c.toNat / 4096 % 16), hexDigitChar (c.toNat / 256 % 16),
      hexDigitChar (c.toNat / 16 % 16), hexDigitChar (c.toNat % 16)]
  else [c]

/-- String literal as produced by `JSON.stringify` on a string value. -/
def jsonStr (s : String) : String :=
  "\"" ++ (⟨(s.data.map jsonEscapeChar).flatten⟩ : String) ++ "\""

/-- Serialization of one column value object by `JSON.stringify`. -/
def jsonOfColumnValue : ColumnValue → String
  | .emailV e t =>
    "\x7b" ++ jsonStr "email" ++ ":" ++ jsonStr e ++ "," ++ jsonStr "text" ++ ":" ++
      jsonStr t ++ "\x7d"
  | .phoneV p c =>
    "\x7b" ++ jsonStr "phone" ++ ":" ++ jsonStr p ++ "," ++ jsonStr "countryShortName" ++ ":" ++
      jsonStr c ++ "\x7d"
  | .statusV l => "\x7b" ++ jsonStr "label" ++ ":" ++ jsonStr l ++ "\x7d"
  | .longTextV v => jsonStr v

/-- Serialization of the whole `values` object by
`JSON.stringify(values)`: entries in insertion order, no spacing. -/
def jsonOfValues (vs : List (String × ColumnValue)) : String :=
  "\x7b" ++ String.intercalate ","
    (vs.map (fun kv => jsonStr kv.1 ++ ":" ++ jsonOfColumnValue kv.2)) ++ "\x7d"

/-- The `.replace(/"/g, '\\"')` applied to the serialized values in
`createItem`: every double quote is replaced by a backslash and a quote. -/
def replaceQuotes (s : String) : String :=
  ⟨(s.data.map (fun c => if c = '"' then ['\\', '"'] else [c])).flatten⟩

/-- Embedding of the GraphQL mutation string built by `createItem` in
`server.js`, with the exact template-literal layout: the board id, the raw
item name and the quote-escaped serialized values are spliced directly
into the text. -/
def buildCreateItemQuery (boardId : String) (pl : ItemPayload) : String :=
  "\n    mutation \x7b\n      create_item(\n        board_id: " ++ boardId ++
  ",\n        item_name: \"" ++ pl.itemName ++
  "\",\n        column_values: \"" ++ replaceQuotes (jsonOfValues pl.columnValues) ++
  "\"\n      ) \x7b\n        id\n      \x7d\n    \x7d\n  "

/-- First position where the marker occurs as a prefix of a suffix of the
input, returning what follows the marker; `none` when the marker does not
occur. -/
def afterMarker (marker : List Char) : List Char → Option (List Char)
  | [] => if marker = [] then some [] else none
  | c :: cs =>
    if marker.isPrefixOf (c :: cs) then some ((c :: cs).drop marker.length)
    else afterMarker marker cs

/-- Reading of the `item_name` string literal of a produced query the way
a GraphQL tokenizer reads it: the characters after `item_name: "` up to
the next double quote. -/
def gqlItemNameLiteral (q : String) : Option String :=
  (afterMarker ("item_name: \"").data q.data).map
    (fun rest => (⟨rest.takeWhile (fun c => !(c = '"'))⟩ : String))

/-- Per-board configuration held in `boardStore`: the access token, the
column map resolved at onboarding, and the optional allowed sender set by
`/config/sender`. -/
structure BoardConfig where
  accessToken : String
  columns : ColumnMap
  allowedSenderEmail : Option String
deriving DecidableEq

/-- Lookup of `boardStore[boardId]`; the store is modelled as an
association list from board id to configuration. -/
def lookupBoard (store : List (String × BoardConfig)) (boardId : String) : Option BoardConfig :=
  (store.find? (fun e => e.1 = boardId)).map (fun e => e.2)

/-- Assignment `boardStore[boardId].allowedSenderEmail = v`. -/
def setAllowedSender (store : List (String × BoardConfig)) (boardId : String) (v : String) :
    List (String × BoardConfig) :=
  store.map (fun e =>
    if e.1 = boardId then (e.1, { e.2 with allowedSenderEmail := some v }) else e)

/-- HTTP outcome of the `/config/sender` handler: the 404 error payload,
or the success payload, which echoes the board id and the original
(un-lowercased) sender. -/
inductive SenderConfigResponse where
  | notFound
  | saved (boardId : String) (allowedSenderEmail : String)
deriving DecidableEq

/-- A thrown JavaScript runtime error, such as calling `toLowerCase` on
`undefined`. -/
inductive JsError where
  | typeError
deriving DecidableEq

/-- JavaScript `String.prototype.toLowerCase`, character by character
(ASCII-faithful, which covers the address strings the endpoint handles). -/
def jsToLower (s : String) : String :=
  ⟨s.data.map Char.toLower⟩

/-- Embedding of the `/config/sender` handler in `server.js`: a missing
board returns 404 and leaves the store unchanged; otherwise
`allowedSenderEmail.toLowerCase()` is stored, which throws when the
request body carries no such string. -/
def configSenderHandler (store : List (String × BoardConfig)) (boardId : String)
    (allowedSenderEmail : Option String) :
    Except JsError (List (String × BoardConfig) × SenderConfigResponse) :=
  match lookupBoard store boardId with
  | none => .ok (store, .notFound)
  | some _ =>
    match allowedSenderEmail with
    | none => .error .typeError
    | some s => .ok (setAllowedSender store boardId (jsToLower s), .saved boardId s)

/-- Configuration the polling loop in `startEmailListener` reads for its
board: the allowed sender (fetched fresh from `boardStore` for each
message) and the column map used by `createItem`. -/
structure ListenerConfig where
  allowedSenderEmail : Option String
  columns : ColumnMap
deriving DecidableEq

/-- One mailbox message as the poller sees it: the IMAP uid, the parsed
sender address (absent when the message has no parsable from-address), the
plain text body, and whether the external `createItem` call would fail
with a network or API error. -/
structure EmailMessage where
  uid : Nat
  fromAddr : Option String
  text : String
  createFails : Bool
deriving DecidableEq

/-- Observable state of the listener: the `processedUids` dedup set, the
uids flagged `\Seen`, and the `createItem` calls attempted, each with the
uid of the message that triggered it. -/
structure ListenerState where
  processed : List Nat
  seen : List Nat
  attempts : List (Nat × ItemPayload)
deriving DecidableEq

/-- The state at process start: all three ledgers empty. -/
def initState : ListenerState := ⟨[], [], []⟩

/-- The sender policy test in the loop:
`!allowedSender || from !== allowedSender` rejects; this accepts exactly
when the stored sender is a truthy (non-empty) string strictly equal to
the parsed address. -/
def senderAllowed (cfg : ListenerConfig) (fromAddr : Option String) : Bool :=
  match cfg.allowedSenderEmail with
  | none => false
  | some s => if s = "" then false else fromAddr = some s

/-- Embedding of one iteration of the message loop in
`startEmailListener`: skip an already-claimed uid; otherwise claim it,
apply the sender policy (marking rejected messages seen), extract the
name (skipping, without marking seen, when none), then attempt
`createItem` and mark seen on success.  The boolean is `true` when the
iteration threw (the `createItem` promise rejected), which in the source
aborts the enclosing `for` loop. -/
def processMessage (cfg : ListenerConfig) (st : ListenerState) (m : EmailMessage) :
    ListenerState × Bool :=
  if m.uid ∈ st.processed then (st, false)
  else
    let st1 : ListenerState := { st with processed := m.uid :: st.processed }
    if senderAllowed cfg m.fromAddr then
      match extractPatientName m.text with
      | none => (st1, false)
      | some name =>
        let pl := createItemPayload cfg.columns name
          (extractValue "Email Address" m.text)
          (extractValue "Phone Number" m.text)
          (extractValue "Service" m.text)
          (extractValue "Special Note" m.text)
        let st2 : ListenerState := { st1 with attempts := (m.uid, pl) :: st1.attempts }
        if m.createFails then (st2, true)
        else ({ st2 with seen := m.uid :: st2.seen }, false)
    else
      ({ st1 with seen := m.uid :: st1.seen }, false)

/-- One poll cycle: the messages the `UNSEEN` search returned, processed
in order; a thrown iteration ends the cycle early, as the source has no
try/catch around the loop body. -/
def runCycle (cfg : ListenerConfig) (st : ListenerState) : List EmailMessage → ListenerState
  | [] => st
  | m :: rest =>
    let r := processMessage cfg st m
    if r.2 then r.1 else runCycle cfg r.1 rest

/-- Successive poll cycles of the `setInterval` loop: the interval timer
keeps firing regardless of how the previous cycle ended. -/
def runCycles (cfg : ListenerConfig) (st : ListenerState)
    (cycles : List (List EmailMessage)) : ListenerState :=
  cycles.foldl (fun s msgs => runCycle cfg s msgs) st

/-- Number of `createItem` calls attempted for a given uid. -/
def countAttempts (st : ListenerState) (u : Nat) : Nat :=
  (st.attempts.filter (fun a => a.1 = u)).length

lemma find?_eq_filter_head? {α : Type} (p : α → Bool) (l : List α) :
    l.find? p = (l.filter p).head? := by
  induction l with
  | nil => rfl
  | cons a l ih =>
    by_cases h : p a
    · rw [List.find?_cons_of_pos _ h, List.filter_cons_of_pos h, List.head?_cons]
    · rw [List.find?_cons_of_neg _ h, List.filter_cons_of_neg h, ih]

/-- C2: for every raw text with at least one line that is non-blank after
trimming, the extracted name is the first such line after trimming, and
for a text whose lines are all blank after trimming the name is absent:
`extractPatientName` equals the trim of the first line of the text whose
trim is non-empty, and is `none` when no such line exists. -/
theorem extractPatientName_first_nonblank_line (text : String) :
    extractPatientName text =
      ((splitOnNl text.data).find? (fun l => !(jsTrimL l).isEmpty)).map
        (fun l => (⟨jsTrimL l⟩ : String)) := by
  simp only [extractPatientName, List.filter_map, List.head?_map, Option.map_map,
    ← find?_eq_filter_head?]
  rfl

lemma dropWhile_idem {α : Type} (p : α → Bool) (l : List α) :
    (l.dropWhile p).dropWhile p = l.dropWhile p := by
  induction l with
  | nil => rfl
  | cons c l ih =>
    by_cases h : p c
    · simp [List.dropWhile_cons, h, ih]
    · simp [List.dropWhile_cons, h]

lemma jsTrimL_dropWhile (l : List Char) :
    jsTrimL (l.dropWhile jsWhitespaceChar) = jsTrimL l := by
  simp [jsTrimL, dropWhile_idem]

lemma takeWhile_append_left {α : Type} (p : α → Bool) (l t : List α)
    (h : l.any (fun c => !p c) = true) :
    (l ++ t).takeWhile p = l.takeWhile p := by
  induction l with
  | nil => simp at h
  | cons c l ih =>
    by_cases hc : p c
    · simp only [List.any_cons, hc, Bool.not_true, Bool.false_or] at h
      simp [List.takeWhile_cons, hc, ih h]
    · simp [List.takeWhile_cons, hc]

lemma dropWhile_append_left {α : Type} (p : α → Bool) (l t : List α)
    (h : l.any (fun c => !p c) = true) :
    (l ++ t).dropWhile p = l.dropWhile p ++ t := by
  induction l with
  | nil => simp at h
  | cons c l ih =>
    by_cases hc : p c
    · simp only [List.any_cons, hc, Bool.not_true, Bool.false_or] at h
      simp [List.dropWhile_cons, hc, ih h]
    · simp [List.dropWhile_cons, hc]

lemma drop_length_takeWhile {α : Type} (p : α → Bool) (l : List α) :
    l.drop (l.takeWhile p).length = l.dropWhile p := by
  induction l with
  | nil => rfl
  | cons c l ih =>
    by_cases hc : p c
    · simp [List.takeWhile_cons, List.dropWhile_cons, hc, ih]
    · simp [List.takeWhile_cons, List.dropWhile_cons, hc]

lemma dropWhile_ne_nil_of_any {α : Type} (p : α → Bool) (l : List α)
    (h : l.any (fun c => !p c) = true) : l.dropWhile p ≠ [] := by
  induction l with
  | nil => simp at h
  | cons c l ih =>
    by_cases hc : p c
    · simp only [List.any_cons, hc, Bool.not_true, Bool.false_or] at h
      simpa [List.dropWhile_cons, hc] using ih h
    · simp [List.dropWhile_cons, hc]

lemma dropWhile_head_not {α : Type} (p : α → Bool) (l : List α) (c : α) (cs : List α)
    (h : l.dropWhile p = c :: cs) : p c = false := by
  induction l with
  | nil => simp at h
  | cons a l ih =>
    by_cases ha : p a
    · rw [List.dropWhile_cons_of_pos ha] at h; exact ih h
    · rw [List.dropWhile_cons_of_neg ha] at h
      cases h
      simpa using ha

lemma all_dropWhile {α : Type} (p q : α → Bool) (l : List α)
    (h : l.all p = true) : (l.dropWhile q).all p = true := by
  induction l with
  | nil => rfl
  | cons c l ih =>
    simp only [List.all_cons, Bool.and_eq_true] at h
    by_cases hc : q c
    · simp [List.dropWhile_cons, hc, ih h.2]
    · simp [List.dropWhile_cons, hc, h.1, h.2]

lemma takeWhile_append_all {α : Type} (p : α → Bool) (l t : List α)
    (h : l.all p = true) : (l ++ t).takeWhile p = l ++ t.takeWhile p := by
  induction l with
  | nil => rfl
  | cons c l ih =>
    simp only [List.all_cons, Bool.and_eq_true] at h
    simp [List.takeWhile_cons, h.1, ih h.2]

lemma lineTerminator_is_whitespace (c : Char) (h : jsLineTerminatorChar c = true) :
    jsWhitespaceChar c = true := by
  simp only [jsLineTerminatorChar, Bool.or_eq_true, decide_eq_true_eq] at h
  simp only [jsWhitespaceChar, Bool.or_eq_true, decide_eq_true_eq, Bool.and_eq_true]
  rcases h with ((h | h) | h) | h <;> omega

lemma ciLabelMatch_self (l rest : List Char) :
    ciLabelMatch l (l ++ ':' :: rest) = some rest := by
  induction l with
  | nil => rfl
  | cons c l ih => simp [ciLabelMatch, ih]

lemma dotPlusBacktrack_of_some (rest : List Char) (k : Nat) (cap : List Char)
    (h : dotPlusAt rest k = some cap) : dotPlusBacktrack rest k = some cap := by
  cases k with
  | zero => simpa [dotPlusBacktrack] using h
  | succ k => simp [dotPlusBacktrack, h]

lemma matchTail_append (v s : List Char)
    (hnz : v.any (fun c => !jsWhitespaceChar c) = true)
    (hnl : v.all (fun c => !jsLineTerminatorChar c) = true)
    (hs : s = [] ∨ ∃ s', s = '\n' :: s') :
    matchTail (v ++ s) = some (v.dropWhile jsWhitespaceChar) := by
  have hdropfull : (v ++ s).drop ((v ++ s).takeWhile jsWhitespaceChar).length =
      v.dropWhile jsWhitespaceChar ++ s := by
    rw [drop_length_takeWhile, dropWhile_append_left _ _ _ hnz]
  obtain ⟨c, cs, hcons⟩ : ∃ c cs, v.dropWhile jsWhitespaceChar = c :: cs := by
    cases hd : v.dropWhile jsWhitespaceChar with
    | nil => exact absurd hd (dropWhile_ne_nil_of_any _ _ hnz)
    | cons c cs => exact ⟨c, cs, rfl⟩
  have hcws : jsWhitespaceChar c = false := dropWhile_head_not _ _ _ _ hcons
  have hclt : jsLineTerminatorChar c = false := by
    cases hlt : jsLineTerminatorChar c with
    | false => rfl
    | true => rw [lineTerminator_is_whitespace c hlt] at hcws; cases hcws
  have hall : (v.dropWhile jsWhitespaceChar).all (fun x => !jsLineTerminatorChar x) = true :=
    all_dropWhile _ _ _ hnl
  have htake : ((c :: cs) ++ s).takeWhile (fun x => !jsLineTerminatorChar x) = c :: cs := by
    rw [← hcons, takeWhile_append_all _ _ _ hall]
    rcases hs with rfl | ⟨s', rfl⟩
    · simp
    · simp [List.takeWhile_cons, jsLineTerminatorChar]
  have hat : dotPlusAt (v ++ s) ((v ++ s).takeWhile jsWhitespaceChar).length =
      some (v.dropWhile jsWhitespaceChar) := by
    rw [dotPlusAt, hdropfull, hcons]
    simp only [List.cons_append, hclt, Bool.false_eq_true, if_false]
    rw [← List.cons_append, htake]
  rw [matchTail]
  exact dotPlusBacktrack_of_some _ _ _ hat

lemma scanMatch_eq_none_of_not_occurs (label : List Char) :
    ∀ t, labelOccurs label t = false → scanMatch label t = none := by
  intro t
  induction t with
  | nil => intro _; rfl
  | cons c cs ih =>
    intro h
    simp only [labelOccurs, Bool.or_eq_false_iff] at h
    have hnone : ciLabelMatch label (c :: cs) = none :=
      Option.not_isSome_iff_eq_none.mp (by simp [h.1])
    simp [scanMatch, hnone, ih h.2]

lemma scanMatch_append_of_none (label : List Char) :
    ∀ p t : List Char,
      (∀ i, i < p.length → ciLabelMatch label ((p ++ t).drop i) = none) →
      scanMatch label (p ++ t) = scanMatch label t := by
  intro p
  induction p with
  | nil => intro t _; rfl
  | cons c p' ih =>
    intro t h
    have h0 : ciLabelMatch label (c :: (p' ++ t)) = none := by
      simpa using h 0 (by simp)
    have hrest : ∀ i, i < p'.length → ciLabelMatch label ((p' ++ t).drop i) = none := by
      intro i hi
      simpa using h (i + 1) (by simpa using Nat.succ_lt_succ hi)
    calc scanMatch label ((c :: p') ++ t) = scanMatch label (p' ++ t) := by
          simp [scanMatch, h0]
      _ = scanMatch label t := ih t hrest

lemma scanMatch_at_label (label rest cap : List Char) (h : matchTail rest = some cap) :
    scanMatch label (label ++ ':' :: rest) = some cap := by
  cases label with
  | nil => simp [scanMatch, ciLabelMatch, h]
  | cons l ls =>
    have hm := ciLabelMatch_self (l :: ls) rest
    simp only [List.cons_append] at hm
    simp [scanMatch, hm, h]

/-- C3 fails as the claim states it: the regex in `extractValue` is not
anchored to the start of a line, so for the text `"xPhone Number: 42"` —
which contains no line of the form `Phone Number: <value>` — the phone
field is `"42"` rather than `null`. -/
theorem extractValue_matches_mid_line :
    (∀ l ∈ splitOnNl ("xPhone Number: 42").data,
        specLabeledLine "Phone Number" (⟨l⟩ : String) = false) ∧
    extractValue "Phone Number" "xPhone Number: 42" = some "42" := by
  constructor
  · decide
  · decide

/-- C3 amended: `extractValue` scans the whole text, not single lines.
If the label followed by a colon occurs nowhere in the text
(case-insensitively), the field is `null`; and whenever the first
case-insensitive occurrence of `<label>:` is followed, on the same line,
by a value containing a non-whitespace character, the field is that value
trimmed.  The occurrence need not start a line; extraction is a total
function of the label and the text alone, so each field is independent of
the others and never throws. -/
theorem extractValue_scan_semantics :
    (∀ label text : String, labelOccurs label.data text.data = false →
      extractValue label text = none) ∧
    (∀ label p v s : String,
      (∀ i, i < p.data.length →
        ciLabelMatch label.data ((p ++ label ++ ":" ++ v ++ s).data.drop i) = none) →
      v.data.any (fun c => !jsWhitespaceChar c) = true →
      v.data.all (fun c => !jsLineTerminatorChar c) = true →
      (s = "" ∨ ∃ s' : String, s = "\n" ++ s') →
      extractValue label (p ++ label ++ ":" ++ v ++ s) = some (jsTrim v)) := by
  constructor
  · intro label text h
    simp [extractValue, scanMatch_eq_none_of_not_occurs _ _ h]
  · intro label p v s hpre hnz hnl hs
    have hdata : (p ++ label ++ ":" ++ v ++ s).data =
        p.data ++ (label.data ++ ':' :: (v.data ++ s.data)) := by
      simp [String.data_append]
    have hs' : s.data = [] ∨ ∃ s', s.data = '\n' :: s' := by
      rcases hs with rfl | ⟨s', rfl⟩
      · exact Or.inl rfl
      · exact Or.inr ⟨s'.data, by simp [String.data_append]⟩
    have hmt := matchTail_append v.data s.data hnz hnl hs'
    rw [hdata] at hpre
    show (scanMatch label.data (p ++ label ++ ":" ++ v ++ s).data).map
        (fun cap => (⟨jsTrimL cap⟩ : String)) = some (jsTrim v)
    rw [hdata, scanMatch_append_of_none label.data p.data _ hpre,
      scanMatch_at_label _ _ _ hmt]
    simp [jsTrim, jsTrimL_dropWhile]

/-- Witness for the amended C3 theorem at concrete inputs: a label that
occurs nowhere yields `none`, and a labelled value preceded by an
unrelated line is extracted trimmed. -/
theorem extractValue_scan_semantics_witness :
    extractValue "Phone Number" "hello world" = none ∧
    extractValue "Phone Number" ("Jane\n" ++ "Phone Number" ++ ":" ++ " 42" ++ "\nbye") =
      some (jsTrim " 42") := by
  constructor
  · exact extractValue_scan_semantics.1 "Phone Number" "hello world" (by decide)
  · exact extractValue_scan_semantics.2 "Phone Number" "Jane\n" " 42" "\nbye"
      (by decide) (by decide) (by decide) (Or.inr ⟨"bye", rfl⟩)

/-- C4: for every claimed message, if the board has no configured allowed
sender or the parsed sender differs from the stored one under exact
string comparison, the message is marked seen and skipped: no
`createItem` attempt and no thrown error. -/
theorem processMessage_rejects_sender (cfg : ListenerConfig) (st : ListenerState)
    (m : EmailMessage) (hclaim : m.uid ∉ st.processed)
    (hrej : cfg.allowedSenderEmail = none ∨
      ∀ s, cfg.allowedSenderEmail = some s → m.fromAddr ≠ some s) :
    processMessage cfg st m =
      ({ st with processed := m.uid :: st.processed, seen := m.uid :: st.seen }, false) := by
  have hsa : senderAllowed cfg m.fromAddr = false := by
    rcases hrej with h | h
    · simp [senderAllowed, h]
    · cases hcfg : cfg.allowedSenderEmail with
      | none => simp [senderAllowed, hcfg]
      | some s =>
        by_cases hse : s = ""
        · simp [senderAllowed, hcfg, hse]
        · simp only [senderAllowed, hcfg]
          rw [if_neg hse]
          exact decide_eq_false (h s hcfg)
  simp [processMessage, hclaim, hsa]

/-- Witness for C4: with no configured sender, a fresh message is claimed,
marked seen and skipped. -/
theorem processMessage_rejects_sender_witness :
    processMessage ⟨none, ⟨"colE", "colP", "colS", "colN"⟩⟩ initState
      ⟨5, some "a@x.com", "Jane Doe", false⟩ = (⟨[5], [5], []⟩, false) :=
  processMessage_rejects_sender _ _ _ (by simp [initState]) (Or.inl rfl)

/-- C5 fails as the claim states it: a sender-accepted message whose body
has no non-blank line is skipped with no `createItem` attempt and no
error, but — unlike the claim — the source does `continue` without
flagging the message seen, so the seen ledger stays empty. -/
theorem nameless_message_not_marked_seen :
    extractPatientName "  \n  " = none ∧
    processMessage ⟨some "a@x.com", ⟨"colE", "colP", "colS", "colN"⟩⟩ initState
      ⟨1, some "a@x.com", "  \n  ", false⟩ = (⟨[1], [], []⟩, false) := by
  constructor
  · decide
  · decide

/-- C5 amended: for every claimed, sender-accepted message whose body
yields no derivable name, processing stops with no `createItem` attempt
and no error; the message is left NOT marked seen — only the dedup entry
prevents it from being reconsidered by this process. -/
theorem processMessage_skips_nameless (cfg : ListenerConfig) (st : ListenerState)
    (m : EmailMessage) (s : String) (hclaim : m.uid ∉ st.processed)
    (hcfg : cfg.allowedSenderEmail = some s) (hne : s ≠ "") (hfrom : m.fromAddr = some s)
    (hname : extractPatientName m.text = none) :
    processMessage cfg st m = ({ st with processed := m.uid :: st.processed }, false) := by
  have hsa : senderAllowed cfg m.fromAddr = true := by
    simp [senderAllowed, hcfg, hne, hfrom]
  simp [processMessage, hclaim, hsa, hname]

/-- Witness for the amended C5 theorem: an accepted sender and an
all-blank body leave only a dedup entry behind. -/
theorem processMessage_skips_nameless_witness :
    processMessage ⟨some "a@x.com", ⟨"colE", "colP", "colS", "colN"⟩⟩ initState
      ⟨7, some "a@x.com", " \n\t", false⟩ = (⟨[7], [], []⟩, false) :=
  processMessage_skips_nameless _ _ _ "a@x.com" (by simp [initState]) rfl (by decide) rfl
    (by decide)

lemma processMessage_preserves_inv (cfg : ListenerConfig) (st : ListenerState)
    (m : EmailMessage)
    (h1 : ∀ a ∈ st.attempts, a.1 ∈ st.processed)
    (h2 : ∀ u, countAttempts st u ≤ 1) :
    (∀ a ∈ (processMessage cfg st m).1.attempts, a.1 ∈ (processMessage cfg st m).1.processed) ∧
    (∀ u, countAttempts (processMessage cfg st m).1 u ≤ 1) := by
  by_cases hp : m.uid ∈ st.processed
  · simp only [processMessage, hp, if_true]
    exact ⟨h1, h2⟩
  · have hzero : st.attempts.filter (fun a => a.1 = m.uid) = [] := by
      rw [List.filter_eq_nil_iff]
      intro a ha
      simp only [decide_eq_true_eq]
      intro hau
      exact hp (hau ▸ h1 a ha)
    have hmem : ∀ a ∈ st.attempts, a.1 ∈ m.uid :: st.processed := by
      intro a ha
      exact List.mem_cons_of_mem _ (h1 a ha)
    simp only [processMessage, hp, if_false]
    rcases hsa : senderAllowed cfg m.fromAddr with _ | _
    · simp only [Bool.false_eq_true, if_false]
      exact ⟨hmem, h2⟩
    · simp only [if_true]
      cases hname : extractPatientName m.text with
      | none => exact ⟨hmem, h2⟩
      | some name =>
        have hcount : ∀ u,
            countAttempts ⟨m.uid :: st.processed, st.seen,
              (m.uid, createItemPayload cfg.columns name
                (extractValue "Email Address" m.text)
                (extractValue "Phone Number" m.text)
                (extractValue "Service" m.text)
                (extractValue "Special Note" m.text)) :: st.attempts⟩ u ≤ 1 := by
          intro u
          by_cases hu : u = m.uid
          · subst hu
            simp [countAttempts, List.filter_cons, hzero]
          · have : ¬ (m.uid = u) := fun h => hu h.symm
            simp only [countAttempts, List.filter_cons, decide_eq_true_eq, this, if_false]
            exact h2 u
        have hmem2 : ∀ a ∈ (m.uid, createItemPayload cfg.columns name
              (extractValue "Email Address" m.text)
              (extractValue "Phone Number" m.text)
              (extractValue "Service" m.text)
              (extractValue "Special Note" m.text)) :: st.attempts,
            a.1 ∈ m.uid :: st.processed := by
          intro a ha
          rcases List.mem_cons.mp ha with rfl | ha
          · exact List.mem_cons_self _ _
          · exact List.mem_cons_of_mem _ (h1 a ha)
        cases hf : m.createFails with
        | true => exact ⟨hmem2, hcount⟩
        | false => exact ⟨hmem2, hcount⟩

lemma runCycle_preserves_inv (cfg : ListenerConfig) :
    ∀ (msgs : List EmailMessage) (st : ListenerState),
      (∀ a ∈ st.attempts, a.1 ∈ st.processed) →
      (∀ u, countAttempts st u ≤ 1) →
      (∀ a ∈ (runCycle cfg st msgs).attempts, a.1 ∈ (runCycle cfg st msgs).processed) ∧
      (∀ u, countAttempts (runCycle cfg st msgs) u ≤ 1) := by
  intro msgs
  induction msgs with
  | nil => intro st h1 h2; exact ⟨h1, h2⟩
  | cons m rest ih =>
    intro st h1 h2
    have hstep := processMessage_preserves_inv cfg st m h1 h2
    simp only [runCycle]
    cases (processMessage cfg st m).2 with
    | true => simpa using hstep
    | false => simpa using ih (processMessage cfg st m).1 hstep.1 hstep.2

lemma runCycles_preserves_inv (cfg : ListenerConfig) :
    ∀ (cycles : List (List EmailMessage)) (st : ListenerState),
      (∀ a ∈ st.attempts, a.1 ∈ st.processed) →
      (∀ u, countAttempts st u ≤ 1) →
      (∀ a ∈ (runCycles cfg st cycles).attempts, a.1 ∈ (runCycles cfg st cycles).processed) ∧
      (∀ u, countAttempts (runCycles cfg st cycles) u ≤ 1) := by
  intro cycles
  induction cycles with
  | nil => intro st h1 h2; exact ⟨h1, h2⟩
  | cons msgs rest ih =>
    intro st h1 h2
    have hstep := runCycle_preserves_inv cfg msgs st h1 h2
    simpa [runCycles, List.foldl_cons] using ih (runCycle cfg st msgs) hstep.1 hstep.2

/-- C1: starting from the empty state, over any sequence of poll cycles
with any messages, at most one `createItem` call is ever attempted per
uid — even when the same uid reappears unseen in later cycles — and
every attempted call's uid is in the `processedUids` dedup set, which the
loop fills before calling `createItem`. -/
theorem dedup_claim_before_create (cfg : ListenerConfig)
    (cycles : List (List EmailMessage)) (u : Nat) :
    countAttempts (runCycles cfg initState cycles) u ≤ 1 ∧
    ∀ a ∈ (runCycles cfg initState cycles).attempts,
      a.1 ∈ (runCycles cfg initState cycles).processed := by
  have h := runCycles_preserves_inv cfg cycles initState
    (by intro a ha; simp [initState] at ha) (by intro u; simp [countAttempts, initState])
  exact ⟨h.2 u, h.1⟩

/-- C8 evaluated at a failing input: in a cycle whose first message's
`createItem` call rejects, the source's loop — having no try/catch —
aborts, so the second message of the same cycle is neither claimed nor
attempted nor marked seen, while the first was claimed and attempted
once. -/
theorem cycle_aborted_by_failing_create :
    (runCycle ⟨some "a@x.com", ⟨"colE", "colP", "colS", "colN"⟩⟩ initState
      [⟨1, some "a@x.com", "Jane\nPhone Number: 1", true⟩,
       ⟨2, some "a@x.com", "Bob", false⟩]).processed = [1] ∧
    countAttempts (runCycle ⟨some "a@x.com", ⟨"colE", "colP", "colS", "colN"⟩⟩ initState
      [⟨1, some "a@x.com", "Jane\nPhone Number: 1", true⟩,
       ⟨2, some "a@x.com", "Bob", false⟩]) 1 = 1 ∧
    countAttempts (runCycle ⟨some "a@x.com", ⟨"colE", "colP", "colS", "colN"⟩⟩ initState
      [⟨1, some "a@x.com", "Jane\nPhone Number: 1", true⟩,
       ⟨2, some "a@x.com", "Bob", false⟩]) 2 = 0 ∧
    (runCycle ⟨some "a@x.com", ⟨"colE", "colP", "colS", "colN"⟩⟩ initState
      [⟨1, some "a@x.com", "Jane\nPhone Number: 1", true⟩,
       ⟨2, some "a@x.com", "Bob", false⟩]).seen = [] := by
  refine ⟨?_, ?_, ?_, ?_⟩ <;> decide

lemma mem_entryIf {k kk : String} {f : String → ColumnValue} {v : Option String}
    {cv : ColumnValue} :
    (kk, cv) ∈ entryIf k f v ↔ kk = k ∧ ∃ s, v = some s ∧ s ≠ "" ∧ cv = f s := by
  cases v with
  | none => simp [entryIf]
  | some s =>
    by_cases h : s = "" <;> simp [entryIf, h]

/-- C6 fails as the claim states it: an extracted value that is present
but equal to the empty string is non-absent, yet the payload omits it,
because the source's `if (email)` test uses JavaScript truthiness and the
empty string is falsy. -/
theorem empty_string_field_omitted :
    (some "" : Option String).isSome = true ∧
    (createItemPayload ⟨"colE", "colP", "colS", "colN"⟩ "Jane"
      (some "") none none none).columnValues = [] := by
  exact ⟨rfl, rfl⟩

/-- C6 amended: the payload's display name is the extracted name, and the
payload includes exactly the fields whose extracted value is non-absent
AND non-empty (JavaScript-truthy); an included field is encoded per its
kind — email as an object repeating the address as display text, phone
with the fixed `"IN"` country code, service as a status label, note as
the raw string. -/
theorem createItemPayload_encoding (cols : ColumnMap) (name : String)
    (email phone service note : Option String) :
    (createItemPayload cols name email phone service note).itemName = name ∧
    (∀ k a b, (k, ColumnValue.emailV a b) ∈
        (createItemPayload cols name email phone service note).columnValues ↔
      k = cols.email ∧ b = a ∧ email = some a ∧ a ≠ "") ∧
    (∀ k a b, (k, ColumnValue.phoneV a b) ∈
        (createItemPayload cols name email phone service note).columnValues ↔
      k = cols.phone ∧ b = "IN" ∧ phone = some a ∧ a ≠ "") ∧
    (∀ k a, (k, ColumnValue.statusV a) ∈
        (createItemPayload cols name email phone service note).columnValues ↔
      k = cols.service ∧ service = some a ∧ a ≠ "") ∧
    (∀ k a, (k, ColumnValue.longTextV a) ∈
        (createItemPayload cols name email phone service note).columnValues ↔
      k = cols.note ∧ note = some a ∧ a ≠ "") := by
  refine ⟨rfl, ?_, ?_, ?_, ?_⟩ <;>
    intros <;>
    simp [createItemPayload, List.mem_append, mem_entryIf] <;>
    aesop

/-- C7: re-running `ensureColumns` on the board state left by a first run
returns the same column map and leaves the board unchanged — for each of
the four titles, the first run either found an existing column or created
one, and the second run finds that same column by title and creates
nothing. -/
theorem ensureColumns_idempotent (b0 : MondayBoard) :
    ensureColumns (ensureColumns b0).2 = ensureColumns b0 := by
  rcases h1 : b0.cols.find? (fun c => c.title = "Email Address") with _ | c1 <;>
  rcases h2 : b0.cols.find? (fun c => c.title = "Phone Number") with _ | c2 <;>
  rcases h3 : b0.cols.find? (fun c => c.title = "Service") with _ | c3 <;>
  rcases h4 : b0.cols.find? (fun c => c.title = "Special Note") with _ | c4 <;>
  simp [ensureColumns, lookupOrCreate, createColumn, h1, h2, h3, h4, List.find?_append]

/-- C9 evaluated at a failing input: a double quote inside the extracted
name is spliced verbatim into the mutation text, so the `item_name`
string literal of the produced query ends early — a reader of the query
sees the name `"a"`, not the intended `a"b` — while a benign name round
trips intact. -/
theorem create_item_query_corrupted_by_quote :
    gqlItemNameLiteral (buildCreateItemQuery "123"
      (createItemPayload ⟨"colE", "colP", "colS", "colN"⟩ "a\"b" none none none none)) =
      some "a" ∧
    ("a" : String) ≠ "a\"b" ∧
    gqlItemNameLiteral (buildCreateItemQuery "123"
      (createItemPayload ⟨"colE", "colP", "colS", "colN"⟩ "Jane Doe" none none none none)) =
      some "Jane Doe" := by
  refine ⟨?_, ?_, ?_⟩ <;> decide

lemma lookupBoard_setAllowedSender (store : List (String × BoardConfig)) (bid v : String)
    (c : BoardConfig) (h : lookupBoard store bid = some c) :
    lookupBoard (setAllowedSender store bid v) bid =
      some { c with allowedSenderEmail := some v } := by
  induction store with
  | nil => simp [lookupBoard] at h
  | cons e rest ih =>
    by_cases he : e.1 = bid
    · have hc : e.2 = c := by
        simpa [lookupBoard, List.find?_cons, he] using h
      subst hc
      simp [lookupBoard, setAllowedSender, List.find?_cons, he]
    · have h' : lookupBoard rest bid = some c := by
        simpa [lookupBoard, List.find?_cons, he] using h
      simpa [lookupBoard, setAllowedSender, List.find?_cons, he] using ih h'

/-- C10: the `/config/sender` handler returns the not-found error with
the store unchanged for an unknown board id; for a known board it throws
a `TypeError` (calling `toLowerCase` on `undefined`) when the body has no
`allowedSenderEmail` string, and otherwise stores the lowercased value,
overwriting any prior allowed sender. -/
theorem configSender_behavior (store : List (String × BoardConfig)) (bid : String)
    (body : Option String) :
    (lookupBoard store bid = none → configSenderHandler store bid body = .ok (store, .notFound)) ∧
    (∀ c, lookupBoard store bid = some c → body = none →
      configSenderHandler store bid body = .error .typeError) ∧
    (∀ c s, lookupBoard store bid = some c → body = some s →
      configSenderHandler store bid body =
        .ok (setAllowedSender store bid (jsToLower s), .saved bid s) ∧
      lookupBoard (setAllowedSender store bid (jsToLower s)) bid =
        some { c with allowedSenderEmail := some (jsToLower s) }) := by
  refine ⟨?_, ?_, ?_⟩
  · intro h
    simp [configSenderHandler, h]
  · intro c hc hb
    subst hb
    simp [configSenderHandler, hc]
  · intro c s hc hb
    subst hb
    exact ⟨by simp [configSenderHandler, hc], lookupBoard_setAllowedSender store bid _ c hc⟩

/-- Witness for C10 at a concrete store: an unregistered board gets 404
with the store untouched, a registered board with a missing body field
throws, and a registered board with a sender string gets the lowercased
value stored. -/
theorem configSender_behavior_witness :
    configSenderHandler [] "b1" (some "A@X.com") = .ok ([], .notFound) ∧
    configSenderHandler [("b1", ⟨"tok", ⟨"colE", "colP", "colS", "colN"⟩, none⟩)] "b1" none =
      .error .typeError ∧
    configSenderHandler [("b1", ⟨"tok", ⟨"colE", "colP", "colS", "colN"⟩, none⟩)] "b1"
      (some "A@X.com") =
      .ok ([("b1", ⟨"tok", ⟨"colE", "colP", "colS", "colN"⟩, some "a@x.com"⟩)],
        .saved "b1" "A@X.com") := by
  refine ⟨?_, ?_, ?_⟩
  · exact (configSender_behavior [] "b1" (some "A@X.com")).1 rfl
  · exact (configSender_behavior [("b1", ⟨"tok", ⟨"colE", "colP", "colS", "colN"⟩, none⟩)]
      "b1" none).2.1 ⟨"tok", ⟨"colE", "colP", "colS", "colN"⟩, none⟩ rfl rfl
  · have h := (configSender_behavior [("b1", ⟨"tok", ⟨"colE", "colP", "colS", "colN"⟩, none⟩)]
      "b1" (some "A@X.com")).2.2 ⟨"tok", ⟨"colE", "colP", "colS", "colN"⟩, none⟩ "A@X.com" rfl rfl
    exact h.1.trans (by rfl)
